import Mathlib

/-!
Verification of the windowing / evaluation-frame / MAPE core of the
RNN load-forecasting notebooks.

The notebooks build supervised samples from an hourly table by
frequency-aware shifts of each requested offset followed by
`dropna(how='any')` (notebook 1, `train_shifted` cells), assemble an
evaluation frame from a predictions matrix by `pd.melt` plus a
positional `actual` column (notebook 1, `eval_df` cell), and score with
`mape` (notebook 1).  The generic engine (`TimeSeriesTensor`) and
`create_evaluation_df` live in `common/utils.py`, which is not part of
the notebook sources; where a definition follows the spec rather than
in-repo code its doc comment says so.
-/

/-- A gapless time-indexed table at a fixed frequency: `length` rows at
consecutive time steps, `value r c` the numeric entry of row `r` in
column `c` (columns indexed by naturals).  Values are exact rationals;
float rounding is not modelled. -/
structure Table where
  length : ℕ
  value : ℕ → ℕ → ℚ

/-- One declared tensor of the tensor specification: an ordered list of
integer time-step offsets and an ordered list of source columns, as in
`tensor_structure = { name : (offsets, columns) }`. -/
structure TensorSpec where
  offsets : List ℤ
  cols : List ℕ

/-- A freq-aware shifted cell: the value of column `c` pulled from
`k` time steps relative to anchor row `i`, or missing when that time
falls outside the table.  This is `df[col].shift(-k, freq)` read at the
anchor row: offset `+h` reads the future row `i+h`, offset `-s` the
lagged row `i-s`, exactly as in the `train_shifted` cells of
notebook 1. -/
def shiftedVal (tbl : Table) (c : ℕ) (k : ℤ) (i : ℕ) : Option ℚ :=
  if 0 ≤ (i : ℤ) + k ∧ (i : ℤ) + k < (tbl.length : ℤ) then
    some (tbl.value ((i : ℤ) + k).toNat c)
  else
    none

/-- The implicit target tensor's column specification: offsets
`t+1 .. t+H` of the target column, always first.  Modelled from the
spec: `TimeSeriesTensor` (common/utils.py) is not among the sources;
the target-first flattened layout is taken from spec section 3/4.1 and
from the displayed `train_inputs.dataframe.head(3)` output of
notebook 3, whose first `HORIZON` columns are `target y t+1 .. t+H`. -/
def targetSpecs (targetCol : ℕ) (H : ℕ) : List (ℕ × ℤ) :=
  (List.range H).map (fun (h : ℕ) => (targetCol, (h : ℤ) + 1))

/-- The declared tensors' column specification, flattened in declaration
order: per tensor, per column, per offset.  Modelled from the spec
(section 4.1) and the displayed dataframe layout of notebook 3;
`TimeSeriesTensor` itself is not among the sources. -/
def inputSpecs (tensors : List TensorSpec) : List (ℕ × ℤ) :=
  tensors.flatMap (fun ts => ts.cols.flatMap (fun c => ts.offsets.map (fun k => (c, k))))

/-- All shifted columns of the constructed table, target tensor first. -/
def allSpecs (targetCol : ℕ) (H : ℕ) (tensors : List TensorSpec) : List (ℕ × ℤ) :=
  targetSpecs targetCol H ++ inputSpecs tensors

/-- The assembled (pre-drop) row of shifted columns at anchor `i`. -/
def rowAt (tbl : Table) (specs : List (ℕ × ℤ)) (i : ℕ) : List (Option ℚ) :=
  specs.map (fun p => shiftedVal tbl p.1 p.2 i)

/-- `dropna(how='any')` keeps a row iff no shifted column is missing. -/
def isComplete (tbl : Table) (specs : List (ℕ × ℤ)) (i : ℕ) : Bool :=
  (rowAt tbl specs i).all Option.isSome

/-- The surviving anchor rows after dropping incomplete rows: the
sample index of the constructed tensor table. -/
def anchors (tbl : Table) (targetCol : ℕ) (H : ℕ) (tensors : List TensorSpec) : List ℕ :=
  (List.range tbl.length).filter (fun i => isComplete tbl (allSpecs targetCol H tensors) i)

/-- A surviving row with the `Option` wrappers removed (every entry of a
complete row is present). -/
def fullRow (tbl : Table) (specs : List (ℕ × ℤ)) (i : ℕ) : List ℚ :=
  (rowAt tbl specs i).map (fun o => o.getD 0)

/-- The flattened constructed tensor table: one row of shifted values per
surviving anchor, target columns first. -/
def dataframe (tbl : Table) (targetCol : ℕ) (H : ℕ) (tensors : List TensorSpec) : List (List ℚ) :=
  (anchors tbl targetCol H tensors).map (fun i => fullRow tbl (allSpecs targetCol H tensors) i)

/-- The dense array delivered for one declared tensor: per surviving
anchor, offsets as the middle axis and columns as the last axis. -/
def tensorArray (tbl : Table) (targetCol : ℕ) (H : ℕ) (tensors : List TensorSpec)
    (ts : TensorSpec) : List (List (List ℚ)) :=
  (anchors tbl targetCol H tensors).map
    (fun i => ts.offsets.map (fun k => ts.cols.map (fun c => (shiftedVal tbl c k i).getD 0)))

/-- The dense array of the implicit target tensor: per surviving anchor
the values at offsets `t+1 .. t+H` of the target column. -/
def targetArray (tbl : Table) (targetCol : ℕ) (H : ℕ) (tensors : List TensorSpec) :
    List (List ℚ) :=
  (anchors tbl targetCol H tensors).map
    (fun i => (List.range H).map (fun (h : ℕ) => (shiftedVal tbl targetCol ((h : ℤ) + 1) i).getD 0))

/-- The target-part of a constructed row at anchor `i`. -/
def targetRow (tbl : Table) (targetCol : ℕ) (H : ℕ) (i : ℕ) : List ℚ :=
  (targetSpecs targetCol H).map (fun p => (shiftedVal tbl p.1 p.2 i).getD 0)

/-- The input-features part of a constructed row at anchor `i`. -/
def inputRow (tbl : Table) (tensors : List TensorSpec) (i : ℕ) : List ℚ :=
  (inputSpecs tensors).map (fun p => (shiftedVal tbl p.1 p.2 i).getD 0)

/-- `range(-T+1, 1)`: the lookback offsets `t-(T-1) .. t` used by every
notebook's input tensor. -/
def lagOffsets (T : ℕ) : List ℤ :=
  (List.range T).map (fun (j : ℕ) => (j : ℤ) - ((T : ℤ) - 1))

/-- `energy[start:]`: the sub-table of all rows from row `s` on
(label-based slicing is inclusive of the start). -/
def sliceFrom (tbl : Table) (s : ℕ) : Table :=
  ⟨tbl.length - s, fun r c => tbl.value (s + r) c⟩

/-- `energy[(index >= s) & (index < e)]`: the sub-table of rows
`s ≤ t < e`. -/
def sliceRange (tbl : Table) (s e : ℕ) : Table :=
  ⟨e - s, fun r c => tbl.value (s + r) c⟩

/-- The 10-row scenario table: hourly rows with `load = [1..10]`. -/
def tenTable : Table :=
  ⟨10, fun r _ => [(1 : ℚ), 2, 3, 4, 5, 6, 7, 8, 9, 10].getD r 0⟩

/-- The scenario's single input tensor: offsets `t-2, t-1, t` over the
single `load` column. -/
def specT3 : List TensorSpec :=
  [⟨[-2, -1, 0], [0]⟩]

/-- The failure taxonomy entry raised by the evaluation-frame builder:
pandas aborts the column assignment with a length/shape mismatch error
(the spec's `ShapeMismatchError`). -/
inductive EvalError where
  | shapeMismatch
deriving DecidableEq

/-- One long-form evaluation record: `(timestamp, horizon-step label,
prediction, actual)`, in original units after inverse scaling. -/
structure EvalRow where
  timestamp : ℕ
  step : String
  prediction : ℚ
  actual : ℚ
deriving DecidableEq

/-- The `eval_df` construction of notebook 1 (generalised over the
horizon exactly as its column list `['t+'+str(t) for t in
range(1, HORIZON+1)]` is):
1. a frame of `predictions` with columns `t+1 .. t+H`;
2. `eval_df['timestamp'] = test_shifted.index` — pandas raises a
   length-mismatch error when the prediction row count differs from the
   surviving anchor count, modelled as `EvalError.shapeMismatch`;
3. `pd.melt(eval_df, id_vars='timestamp', ...)` — stacks the value
   columns one after another in column order, each block keeping row
   order, labelled by the column name;
4. `eval_df['actual'] = np.transpose(y_test).ravel()` — positionally
   pairs row `(h, s)` with `target[s][h]` (again a pandas length check,
   modelled as the same error);
5. the inverse scaling applied to the prediction and actual columns. -/
def create_evaluation_df (predictions : List (List ℚ)) (timestamps : List ℕ)
    (target : List (List ℚ)) (H : ℕ) (invScale : ℚ → ℚ) :
    Except EvalError (List EvalRow) :=
  if predictions.length = timestamps.length then
    if target.length = predictions.length then
      Except.ok ((List.range H).flatMap (fun (h : ℕ) =>
        (List.zip timestamps (List.zip (predictions.map (fun row => row.getD h 0))
            (target.map (fun row => row.getD h 0)))).map
          (fun x => ⟨x.1, "t+" ++ toString (h + 1), invScale x.2.1, invScale x.2.2⟩)))
    else
      Except.error EvalError.shapeMismatch
  else
    Except.error EvalError.shapeMismatch

/-- An IEEE-754-style value class for the float arithmetic performed by
the `mape` cell: finite values carried as exact rationals (rounding and
overflow are not modelled, and the single rational zero stands for
numpy's positive zero), plus the two infinities and NaN. -/
inductive FVal where
  | fin : ℚ → FVal
  | inf : FVal
  | ninf : FVal
  | nan : FVal
deriving DecidableEq

/-- Float subtraction on the value classes. -/
def FVal.sub : FVal → FVal → FVal
  | .nan, _ => .nan
  | _, .nan => .nan
  | .fin a, .fin b => .fin (a - b)
  | .fin _, .inf => .ninf
  | .fin _, .ninf => .inf
  | .inf, .fin _ => .inf
  | .inf, .inf => .nan
  | .inf, .ninf => .inf
  | .ninf, .fin _ => .ninf
  | .ninf, .inf => .ninf
  | .ninf, .ninf => .nan

/-- Float absolute value. -/
def FVal.fabs : FVal → FVal
  | .nan => .nan
  | .fin a => .fin |a|
  | .inf => .inf
  | .ninf => .inf

/-- Float division, with the IEEE zero-divisor behaviour of
`numpy`: `a/0 = inf` for `a > 0`, `-inf` for `a < 0`, `NaN` for
`0/0` (divisor zero is positive zero). -/
def FVal.div : FVal → FVal → FVal
  | .nan, _ => .nan
  | _, .nan => .nan
  | .fin a, .fin b =>
      if b = 0 then (if 0 < a then .inf else if a < 0 then .ninf else .nan)
      else .fin (a / b)
  | .fin _, .inf => .fin 0
  | .fin _, .ninf => .fin 0
  | .inf, .fin b => if b < 0 then .ninf else .inf
  | .inf, .inf => .nan
  | .inf, .ninf => .nan
  | .ninf, .fin b => if b < 0 then .inf else .ninf
  | .ninf, .inf => .nan
  | .ninf, .ninf => .nan

/-- Float addition. -/
def FVal.add : FVal → FVal → FVal
  | .nan, _ => .nan
  | _, .nan => .nan
  | .fin a, .fin b => .fin (a + b)
  | .fin _, .inf => .inf
  | .fin _, .ninf => .ninf
  | .inf, .fin _ => .inf
  | .inf, .inf => .inf
  | .inf, .ninf => .nan
  | .ninf, .fin _ => .ninf
  | .ninf, .inf => .nan
  | .ninf, .ninf => .ninf

/-- NaN test. -/
def FVal.isNaN : FVal → Bool
  | .nan => true
  | _ => false

/-- Finiteness test. -/
def FVal.isFinite : FVal → Bool
  | .fin _ => true
  | _ => false

/-- Sum of a float series. -/
def fsum (l : List FVal) : FVal := l.foldr FVal.add (.fin 0)

/-- `pandas.Series.mean()` with its default `skipna=True`: NaN entries
are dropped before summing and the count excludes them; the mean of an
empty or all-NaN series is NaN. -/
def smean (l : List FVal) : FVal :=
  let kept := l.filter (fun v => !v.isNaN)
  if kept.length = 0 then .nan else (fsum kept).div (.fin (kept.length : ℚ))

/-- The `mape` function of notebook 1 (common/utils.py, loaded inline):
`((predictions - actuals).abs() / actuals).mean()`. -/
def mape (predictions actuals : List FVal) : FVal :=
  smean (List.zipWith (fun p a => ((p.sub a).fabs).div a) predictions actuals)

/-- A float value that is neither NaN nor negative infinity (the only
classes a `mape` term list can avoid producing). -/
def FVal.ok (x : FVal) : Prop := x ≠ FVal.nan ∧ x ≠ FVal.ninf

lemma shiftedVal_isSome (tbl : Table) (c : ℕ) (k : ℤ) (i : ℕ) :
    (shiftedVal tbl c k i).isSome = true ↔
      0 ≤ (i : ℤ) + k ∧ (i : ℤ) + k < (tbl.length : ℤ) := by
  unfold shiftedVal
  split <;> simp_all

lemma isComplete_iff (tbl : Table) (specs : List (ℕ × ℤ)) (i : ℕ) :
    isComplete tbl specs i = true ↔
      ∀ p ∈ specs, 0 ≤ (i : ℤ) + p.2 ∧ (i : ℤ) + p.2 < (tbl.length : ℤ) := by
  unfold isComplete rowAt
  rw [List.all_eq_true]
  constructor
  · intro h p hp
    exact (shiftedVal_isSome tbl p.1 p.2 i).mp (h _ (List.mem_map_of_mem _ hp))
  · intro h o ho
    obtain ⟨p, hp, rfl⟩ := List.mem_map.mp ho
    exact (shiftedVal_isSome tbl p.1 p.2 i).mpr (h p hp)

lemma filter_range_interval (N L K : ℕ) :
    (List.range N).filter (fun i => decide (L ≤ i ∧ i < K)) =
      List.range' L (min K N - L) := by
  induction N with
  | zero => simp
  | succ n ih =>
    have hsing : List.filter (fun i => decide (L ≤ i ∧ i < K)) [n] =
        (if L ≤ n ∧ n < K then [n] else []) := by
      by_cases h : L ≤ n ∧ n < K <;> simp [h]
    rw [List.range_succ, List.filter_append, ih, hsing]
    by_cases hK : n < K
    · have hmin1 : min K (n + 1) = n + 1 := by omega
      have hmin2 : min K n = n := by omega
      by_cases hL : L ≤ n
      · rw [if_pos ⟨hL, hK⟩, hmin1, hmin2,
          show (n + 1) - L = (n - L) + 1 by omega, List.range'_1_concat,
          show L + (n - L) = n by omega]
      · rw [if_neg (by omega), hmin1, hmin2, show (n + 1) - L = 0 by omega,
          show n - L = 0 by omega]
        simp
    · have hmin1 : min K (n + 1) = K := by omega
      have hmin2 : min K n = K := by omega
      rw [if_neg (by omega), hmin1, hmin2]
      simp

lemma mem_targetSpecs {targetCol H : ℕ} {p : ℕ × ℤ} :
    p ∈ targetSpecs targetCol H ↔ ∃ h, h < H ∧ p = (targetCol, (h : ℤ) + 1) := by
  unfold targetSpecs
  rw [List.mem_map]
  constructor
  · rintro ⟨h, hh, rfl⟩
    exact ⟨h, List.mem_range.mp hh, rfl⟩
  · rintro ⟨h, hh, rfl⟩
    exact ⟨h, List.mem_range.mpr hh, rfl⟩

/-- Completeness of an anchor row is exactly the interval condition
`L ≤ i ∧ i < N - H`, when the declared offsets are lookbacks bounded by
`L`, the bound is attained, and the horizon is positive. -/
lemma isComplete_interval (tbl : Table) (targetCol H L : ℕ) (tensors : List TensorSpec)
    (hH : 1 ≤ H)
    (hmax : ∃ p ∈ inputSpecs tensors, p.2 = -(L : ℤ))
    (hbound : ∀ p ∈ inputSpecs tensors, -(L : ℤ) ≤ p.2 ∧ p.2 ≤ 0)
    (i : ℕ) (hi : i < tbl.length) :
    isComplete tbl (allSpecs targetCol H tensors) i = true ↔
      (L ≤ i ∧ i < tbl.length - H) := by
  rw [isComplete_iff]
  constructor
  · intro hall
    obtain ⟨p, hpmem, hpk⟩ := hmax
    have h1 := hall p (List.mem_append.mpr (Or.inr hpmem))
    have h2 := hall (targetCol, (H : ℤ))
      (List.mem_append.mpr (Or.inl (mem_targetSpecs.mpr
        ⟨H - 1, by omega, by rw [Prod.mk.injEq]; exact ⟨rfl, by omega⟩⟩)))
    rw [hpk] at h1
    constructor
    · omega
    · omega
  · rintro ⟨hLi, hiN⟩ p hp
    rcases List.mem_append.mp hp with htgt | hinp
    · obtain ⟨h, hh, rfl⟩ := mem_targetSpecs.mp htgt
      constructor
      · omega
      · omega
    · have hb := hbound p hinp
      constructor
      · omega
      · omega

/-- The surviving anchors form the contiguous block
`[L, L+1, ..., N - H - 1]`. -/
lemma anchors_eq_range' (tbl : Table) (targetCol H L : ℕ) (tensors : List TensorSpec)
    (hH : 1 ≤ H)
    (hmax : ∃ p ∈ inputSpecs tensors, p.2 = -(L : ℤ))
    (hbound : ∀ p ∈ inputSpecs tensors, -(L : ℤ) ≤ p.2 ∧ p.2 ≤ 0) :
    anchors tbl targetCol H tensors = List.range' L (tbl.length - H - L) := by
  unfold anchors
  have hcongr : ∀ i ∈ List.range tbl.length,
      isComplete tbl (allSpecs targetCol H tensors) i =
        decide (L ≤ i ∧ i < tbl.length - H) := by
    intro i hi
    have hi' := List.mem_range.mp hi
    by_cases hc : L ≤ i ∧ i < tbl.length - H
    · rw [decide_eq_true hc,
        (isComplete_interval tbl targetCol H L tensors hH hmax hbound i hi').mpr hc]
    · rw [decide_eq_false hc]
      exact Bool.eq_false_iff.mpr (fun h => hc
        ((isComplete_interval tbl targetCol H L tensors hH hmax hbound i hi').mp h))
  rw [List.filter_congr hcongr, filter_range_interval]
  congr 1
  omega

/-- Claim C1: for every gapless time-indexed table and every tensor spec
(lookback offsets bounded by an attained maximum `L`, positive horizon
`H`), the windowing construction — freq-aware shifts of each requested
offset followed by dropping rows with any missing value — produces
exactly `len(table) - (L + H)` samples, where `L + H` is the sum of the
maximum lookback offset and the horizon (natural subtraction, so zero
when the span exceeds the table). -/
theorem windowing_sample_count (tbl : Table) (targetCol H L : ℕ) (tensors : List TensorSpec)
    (hH : 1 ≤ H)
    (hmax : ∃ p ∈ inputSpecs tensors, p.2 = -(L : ℤ))
    (hbound : ∀ p ∈ inputSpecs tensors, -(L : ℤ) ≤ p.2 ∧ p.2 ≤ 0) :
    (anchors tbl targetCol H tensors).length = tbl.length - (L + H) := by
  rw [anchors_eq_range' tbl targetCol H L tensors hH hmax hbound, List.length_range']
  omega

/-- Witness for C1: the 10-row scenario with lookback offsets
`t-2, t-1, t` and horizon 1 yields `10 - (2 + 1) = 7` samples. -/
theorem windowing_sample_count_witness :
    (anchors tenTable 0 1 specT3).length = tenTable.length - (2 + 1) :=
  windowing_sample_count tenTable 0 1 2 specT3 (by decide)
    ⟨(0, -2), by decide, by decide⟩ (by decide)

/-- Claim C2 counterexample: the scenario of 10 hourly rows with
`load = [1..10]`, lookback offsets `t-2, t-1, t` and horizon 1 does NOT
yield 6 samples (it yields 7: anchors `t = 2 .. 8` all survive). -/
theorem scenario_ten_rows_counterexample :
    ¬ ((anchors tenTable 0 1 specT3).length = 6) := by decide

/-- Claim C2 amended: the scenario yields exactly 7 samples
(`10 - (2 + 1)`, the maximum lookback offset 2 plus the horizon 1), and
the first sample's input sequence is `[1, 2, 3]` with target `4`. -/
theorem scenario_ten_rows_amended :
    (anchors tenTable 0 1 specT3).length = 7 ∧
    ((dataframe tenTable 0 1 specT3).map (fun r => r.drop 1)).head? = some [1, 2, 3] ∧
    ((dataframe tenTable 0 1 specT3).map (fun r => r.take 1)).head? = some [4] := by
  decide

/-- Claim C4: with drop-incomplete (the default), an anchor row survives
iff ALL requested offsets — of every declared tensor and of the implicit
target tensor (offsets `1..H`) — fall inside the original table's time
range; and every tensor's delivered array (and the target's) is indexed
exactly by the surviving anchors, so an excluded anchor appears in no
tensor. -/
theorem drop_incomplete_characterization (tbl : Table) (targetCol H : ℕ)
    (tensors : List TensorSpec) :
    (∀ i : ℕ, i ∈ anchors tbl targetCol H tensors ↔
      (i < tbl.length ∧ ∀ p ∈ allSpecs targetCol H tensors,
        0 ≤ (i : ℤ) + p.2 ∧ (i : ℤ) + p.2 < (tbl.length : ℤ)))
    ∧ (∀ ts : TensorSpec, (tensorArray tbl targetCol H tensors ts).length =
        (anchors tbl targetCol H tensors).length)
    ∧ (targetArray tbl targetCol H tensors).length =
        (anchors tbl targetCol H tensors).length := by
  refine ⟨fun i => ?_, fun ts => by simp [tensorArray], by simp [targetArray]⟩
  unfold anchors
  rw [List.mem_filter, List.mem_range, isComplete_iff]

/-- Claim C5: requesting a horizon longer than the table, or any lookback
offset reaching further back than the table's length, makes the
construction return an empty result (zero samples); the construction is
total, so no error is raised. -/
theorem oversized_window_empty (tbl : Table) (targetCol H : ℕ) (tensors : List TensorSpec)
    (h : tbl.length < H ∨ ∃ p ∈ inputSpecs tensors, p.2 + (tbl.length : ℤ) < 0) :
    anchors tbl targetCol H tensors = [] ∧ dataframe tbl targetCol H tensors = [] := by
  have ha : anchors tbl targetCol H tensors = [] := by
    unfold anchors
    rw [List.filter_eq_nil_iff]
    intro i hi
    have hi' := List.mem_range.mp hi
    intro hc
    have hall := (isComplete_iff tbl (allSpecs targetCol H tensors) i).mp hc
    rcases h with hhor | ⟨p, hp, hneg⟩
    · have hH : 1 ≤ H := by omega
      have hmem : ((targetCol, (H : ℤ)) : ℕ × ℤ) ∈ allSpecs targetCol H tensors :=
        List.mem_append.mpr (Or.inl (mem_targetSpecs.mpr ⟨H - 1, by omega,
          by rw [Prod.mk.injEq]; exact ⟨rfl, by omega⟩⟩))
      have := (hall _ hmem).2
      omega
    · have hmem : p ∈ allSpecs targetCol H tensors := List.mem_append.mpr (Or.inr hp)
      have := (hall p hmem).1
      omega
  refine ⟨ha, ?_⟩
  unfold dataframe
  rw [ha]
  rfl

/-- Witness for C5: a 2-row table with horizon 5 and a current-step
tensor yields no samples and an empty dataframe. -/
theorem oversized_window_empty_witness :
    anchors ⟨2, fun _ _ => 0⟩ 0 5 [⟨[0], [0]⟩] = [] ∧
    dataframe ⟨2, fun _ _ => 0⟩ 0 5 [⟨[0], [0]⟩] = [] :=
  oversized_window_empty ⟨2, fun _ _ => 0⟩ 0 5 [⟨[0], [0]⟩] (Or.inl (by decide))

/-- Claim C9: in every constructed tensor table the implicit target
tensor's columns `t+1 .. t+H` occupy the first `HORIZON` column
positions, before all declared tensors' columns; consequently slicing
off the first `HORIZON` columns of the flattened table yields exactly
the declared input features (`X = dataframe.as_matrix()[:, HORIZON:]`). -/
theorem target_cols_first (tbl : Table) (targetCol H : ℕ) (tensors : List TensorSpec) :
    dataframe tbl targetCol H tensors =
      (anchors tbl targetCol H tensors).map
        (fun i => targetRow tbl targetCol H i ++ inputRow tbl tensors i)
    ∧ (∀ i : ℕ, (targetRow tbl targetCol H i).length = H)
    ∧ (dataframe tbl targetCol H tensors).map (fun r => r.take H) =
        (anchors tbl targetCol H tensors).map (fun i => targetRow tbl targetCol H i)
    ∧ (dataframe tbl targetCol H tensors).map (fun r => r.drop H) =
        (anchors tbl targetCol H tensors).map (fun i => inputRow tbl tensors i) := by
  have hrow : ∀ i, fullRow tbl (allSpecs targetCol H tensors) i =
      targetRow tbl targetCol H i ++ inputRow tbl tensors i := by
    intro i
    unfold fullRow rowAt allSpecs targetRow inputRow
    rw [List.map_append, List.map_append, List.map_map, List.map_map]
    rfl
  have hlen : ∀ i, (targetRow tbl targetCol H i).length = H := by
    intro i
    unfold targetRow targetSpecs
    rw [List.length_map, List.length_map, List.length_range]
  refine ⟨?_, hlen, ?_, ?_⟩
  · unfold dataframe
    exact List.map_congr_left (fun i _ => hrow i)
  · unfold dataframe
    rw [List.map_map]
    refine List.map_congr_left (fun i _ => ?_)
    show (fullRow tbl (allSpecs targetCol H tensors) i).take H = _
    rw [hrow i, List.take_left' (hlen i)]
  · unfold dataframe
    rw [List.map_map]
    refine List.map_congr_left (fun i _ => ?_)
    show (fullRow tbl (allSpecs targetCol H tensors) i).drop H = _
    rw [hrow i, List.drop_left' (hlen i)]

lemma lag_hmax (T : ℕ) (cols : List ℕ) (c0 : ℕ) (hc0 : c0 ∈ cols) (hT : 1 ≤ T) :
    ∃ p ∈ inputSpecs [⟨lagOffsets T, cols⟩], p.2 = -((T - 1 : ℕ) : ℤ) := by
  have hj : ((0 : ℕ) : ℤ) - ((T : ℤ) - 1) ∈ lagOffsets T := by
    unfold lagOffsets
    exact List.mem_map_of_mem _ (List.mem_range.mpr hT)
  refine ⟨(c0, ((0 : ℕ) : ℤ) - ((T : ℤ) - 1)), ?_, by omega⟩
  unfold inputSpecs
  exact List.mem_flatMap.mpr ⟨⟨lagOffsets T, cols⟩, List.mem_singleton.mpr rfl,
    List.mem_flatMap.mpr ⟨c0, hc0, List.mem_map_of_mem _ hj⟩⟩

lemma lag_hbound (T : ℕ) (cols : List ℕ) :
    ∀ p ∈ inputSpecs [⟨lagOffsets T, cols⟩], -((T - 1 : ℕ) : ℤ) ≤ p.2 ∧ p.2 ≤ 0 := by
  intro p hp
  unfold inputSpecs at hp
  obtain ⟨ts, hts, hp2⟩ := List.mem_flatMap.mp hp
  rw [List.mem_singleton] at hts
  subst hts
  obtain ⟨c, hc, hp3⟩ := List.mem_flatMap.mp hp2
  obtain ⟨k, hk, rfl⟩ := List.mem_map.mp hp3
  unfold lagOffsets at hk
  obtain ⟨j, hj, rfl⟩ := List.mem_map.mp hk
  have := List.mem_range.mp hj
  constructor <;> simp <;> omega

/-- Claim C10: the test split is sliced at `test_start_dt` without
prepending the `T-1` lookback hours (the computed `look_back_dt` is
unused there), so no test sample is anchored in the first `T-1` hours of
the test period and the first surviving test anchor is
`test_start_dt + (T-1)` hours; the validation split, sliced from
`valid_start_dt - (T-1)` hours, starts its surviving anchors exactly at
`valid_start_dt`. -/
theorem test_split_lookback (energy : Table) (validStart testStart T H targetCol : ℕ)
    (cols : List ℕ) (c0 : ℕ) (hc0 : c0 ∈ cols)
    (hT : 1 ≤ T) (hH : 1 ≤ H)
    (hv : T - 1 ≤ validStart) (hvt : validStart + H < testStart)
    (hte : testStart + T + H ≤ energy.length) :
    (∀ hr ∈ (anchors (sliceFrom energy testStart) targetCol H [⟨lagOffsets T, cols⟩]).map
        (fun i => testStart + i), testStart + (T - 1) ≤ hr)
    ∧ ((anchors (sliceFrom energy testStart) targetCol H [⟨lagOffsets T, cols⟩]).map
        (fun i => testStart + i)).head? = some (testStart + (T - 1))
    ∧ ((anchors (sliceRange energy (validStart - (T - 1)) testStart) targetCol H
        [⟨lagOffsets T, cols⟩]).map
        (fun i => (validStart - (T - 1)) + i)).head? = some validStart := by
  have htest : anchors (sliceFrom energy testStart) targetCol H [⟨lagOffsets T, cols⟩] =
      List.range' (T - 1) ((sliceFrom energy testStart).length - H - (T - 1)) :=
    anchors_eq_range' _ targetCol H (T - 1) _ hH (lag_hmax T cols c0 hc0 hT)
      (lag_hbound T cols)
  have hvalid : anchors (sliceRange energy (validStart - (T - 1)) testStart) targetCol H
      [⟨lagOffsets T, cols⟩] =
      List.range' (T - 1)
        ((sliceRange energy (validStart - (T - 1)) testStart).length - H - (T - 1)) :=
    anchors_eq_range' _ targetCol H (T - 1) _ hH (lag_hmax T cols c0 hc0 hT)
      (lag_hbound T cols)
  have hlen1 : (sliceFrom energy testStart).length = energy.length - testStart := rfl
  have hlen2 : (sliceRange energy (validStart - (T - 1)) testStart).length =
      testStart - (validStart - (T - 1)) := rfl
  refine ⟨?_, ?_, ?_⟩
  · intro hr hhr
    obtain ⟨i, hi, rfl⟩ := List.mem_map.mp hhr
    rw [htest] at hi
    obtain ⟨j, hj, rfl⟩ := List.mem_range'.mp hi
    omega
  · rw [htest, List.head?_map, List.head?_range', if_neg (by rw [hlen1]; omega)]
    rfl
  · rw [hvalid, List.head?_map, List.head?_range', if_neg (by rw [hlen2]; omega)]
    simp only [Option.map_some']
    rw [Nat.sub_add_cancel hv]

/-- Witness for C10: with 30 hourly rows, validation at hour 10, test at
hour 20, `T = 3` and horizon 2, the first test anchor is hour
`20 + 2 = 22` and the first validation anchor is hour 10. -/
theorem test_split_lookback_witness :
    ((anchors (sliceFrom ⟨30, fun _ _ => 0⟩ 20) 0 2 [⟨lagOffsets 3, [0]⟩]).map
        (fun i => 20 + i)).head? = some (20 + (3 - 1)) ∧
    ((anchors (sliceRange ⟨30, fun _ _ => 0⟩ (10 - (3 - 1)) 20) 0 2
        [⟨lagOffsets 3, [0]⟩]).map (fun i => (10 - (3 - 1)) + i)).head? = some 10 := by
  have h := test_split_lookback ⟨30, fun _ _ => 0⟩ 10 20 3 2 0 [0] 0 (by decide)
    (by decide) (by decide) (by decide) (by decide) (by decide)
  exact ⟨h.2.1, h.2.2⟩

/-- Claim C3 counterexample: for 2 samples, horizon 2, predictions
`[[0.1, 0.2], [0.3, 0.4]]` and the identity inverse-scaler, the
evaluation frame is NOT ordered anchor-major
`(a0,t+1), (a0,t+2), (a1,t+1), (a1,t+2)` as claimed: `pd.melt` stacks
the `t+1` block before the `t+2` block. -/
theorem eval_frame_order_counterexample :
    (create_evaluation_df [[1/10, 2/10], [3/10, 4/10]] [0, 1] [[10, 20], [30, 40]] 2
        (fun x => x)).toOption ≠
      some [⟨0, "t+1", 1/10, 10⟩, ⟨0, "t+2", 2/10, 20⟩,
            ⟨1, "t+1", 3/10, 30⟩, ⟨1, "t+2", 4/10, 40⟩] := by
  intro h
  have h2 := congrArg (Option.map (List.map (fun r => EvalRow.timestamp r))) h
  revert h2
  decide

/-- Claim C3 amended: the same input yields the same four rows labelled
`t+1`/`t+2`, each prediction paired with the target tensor's entry at
the same (anchor, horizon step), but grouped by horizon step first and
by anchor second: `(a0,t+1,0.1), (a1,t+1,0.3), (a0,t+2,0.2),
(a1,t+2,0.4)`. -/
theorem eval_frame_order_amended :
    create_evaluation_df [[1/10, 2/10], [3/10, 4/10]] [0, 1] [[10, 20], [30, 40]] 2
        (fun x => x) =
      Except.ok [⟨0, "t+1", 1/10, 10⟩, ⟨1, "t+1", 3/10, 30⟩,
                 ⟨0, "t+2", 2/10, 20⟩, ⟨1, "t+2", 4/10, 40⟩] := by
  rfl

/-- Claim C6: whenever the predictions' sample count differs from the
number of surviving anchor timestamps of the constructed test table, the
evaluation-frame builder fails with the shape-mismatch error. -/
theorem eval_frame_shape_mismatch (predictions : List (List ℚ)) (tbl : Table)
    (targetCol H : ℕ) (tensors : List TensorSpec) (target : List (List ℚ))
    (invScale : ℚ → ℚ)
    (h : predictions.length ≠ (anchors tbl targetCol H tensors).length) :
    create_evaluation_df predictions (anchors tbl targetCol H tensors) target H invScale =
      Except.error EvalError.shapeMismatch := by
  unfold create_evaluation_df
  rw [if_neg h]

/-- Witness for C6: an empty predictions list against the 7 surviving
anchors of the 10-row scenario is rejected. -/
theorem eval_frame_shape_mismatch_witness :
    create_evaluation_df [] (anchors tenTable 0 1 specT3) [] 1 (fun x => x) =
      Except.error EvalError.shapeMismatch :=
  eval_frame_shape_mismatch [] tenTable 0 1 specT3 [] (fun x => x) (by decide)

lemma zip_terms (ps as : List ℚ) (hz : ∀ a ∈ as, a ≠ 0) :
    List.zipWith (fun p a => ((FVal.sub p a).fabs).div a)
        (ps.map FVal.fin) (as.map FVal.fin) =
      (List.zipWith (fun p a => |p - a| / a) ps as).map FVal.fin := by
  induction ps generalizing as with
  | nil => simp
  | cons p pt ih =>
    cases as with
    | nil => simp
    | cons a ta =>
      have ha : a ≠ 0 := hz a (List.mem_cons_self a ta)
      simp only [List.map_cons, List.zipWith_cons_cons]
      rw [ih ta (fun x hx => hz x (List.mem_cons_of_mem a hx))]
      congr 1
      show ((FVal.fin p).sub (FVal.fin a)).fabs.div (FVal.fin a) = FVal.fin (|p - a| / a)
      simp [FVal.sub, FVal.fabs, FVal.div, ha]

lemma filter_notNaN_map_fin (l : List ℚ) :
    (l.map FVal.fin).filter (fun v => !FVal.isNaN v) = l.map FVal.fin := by
  rw [List.filter_eq_self]
  intro x hx
  obtain ⟨q, _, rfl⟩ := List.mem_map.mp hx
  rfl

lemma fsum_map_fin (l : List ℚ) : fsum (l.map FVal.fin) = FVal.fin l.sum := by
  induction l with
  | nil => rfl
  | cons a t ih =>
    show FVal.add (FVal.fin a) (fsum (t.map FVal.fin)) = _
    rw [ih]
    simp [FVal.add]

/-- Claim C7: for equal-length sequences with no zero actual (and at
least one element so the mean exists), `mape` equals the mean over all
elements of `|prediction - actual| / actual`. -/
theorem mape_mean_formula (ps as : List ℚ) (hlen : ps.length = as.length)
    (hne : as ≠ []) (hz : ∀ a ∈ as, a ≠ 0) :
    mape (ps.map FVal.fin) (as.map FVal.fin) =
      FVal.fin ((List.zipWith (fun p a => |p - a| / a) ps as).sum / (as.length : ℚ)) := by
  unfold mape smean
  rw [zip_terms ps as hz, filter_notNaN_map_fin]
  simp only [fsum_map_fin, List.length_map, List.length_zipWith, hlen, min_self]
  have hn0 : as.length ≠ 0 := fun h0 => hne (List.length_eq_zero.mp h0)
  rw [if_neg hn0]
  simp only [FVal.div, Nat.cast_eq_zero]
  rw [if_neg hn0]

/-- Witness for C7: `mape([100],[50]) = 1.0` and
`mape([50],[100]) = 0.5`. -/
theorem mape_mean_formula_witness :
    mape ([(100 : ℚ)].map FVal.fin) ([(50 : ℚ)].map FVal.fin) = FVal.fin 1 ∧
    mape ([(50 : ℚ)].map FVal.fin) ([(100 : ℚ)].map FVal.fin) = FVal.fin (1 / 2) := by
  constructor
  · rw [mape_mean_formula [100] [50] rfl (by simp) (by norm_num)]
    norm_num
  · rw [mape_mean_formula [50] [100] rfl (by simp) (by norm_num)]
    norm_num

lemma add_ok {a b : FVal} (ha : a.ok) (hb : b.ok) : (a.add b).ok := by
  cases a <;> cases b <;> simp_all [FVal.add, FVal.ok]

lemma fsum_ok {l : List FVal} (h : ∀ x ∈ l, x.ok) : (fsum l).ok := by
  induction l with
  | nil =>
    refine ⟨?_, ?_⟩ <;> simp [fsum]
  | cons a t ih =>
    exact add_ok (h a (List.mem_cons_self a t))
      (ih (fun x hx => h x (List.mem_cons_of_mem a hx)))

lemma add_inf_of_ok {b : FVal} (hb : b.ok) : FVal.inf.add b = FVal.inf := by
  cases b <;> simp_all [FVal.add, FVal.ok]

lemma add_to_inf {a : FVal} (ha : a.ok) : a.add FVal.inf = FVal.inf := by
  cases a <;> simp_all [FVal.add, FVal.ok]

lemma fsum_eq_inf {l : List FVal} (hinf : FVal.inf ∈ l) (h : ∀ x ∈ l, x.ok) :
    fsum l = FVal.inf := by
  induction l with
  | nil => cases hinf
  | cons a t ih =>
    rcases List.mem_cons.mp hinf with heq | hmem
    · rw [← heq]
      exact add_inf_of_ok (fsum_ok (fun x hx => h x (List.mem_cons_of_mem a hx)))
    · show a.add (fsum t) = FVal.inf
      rw [ih hmem (fun x hx => h x (List.mem_cons_of_mem a hx))]
      exact add_to_inf (h a (List.mem_cons_self a t))

lemma term_ne_ninf (p a : ℚ) :
    ((FVal.fin p).sub (FVal.fin a)).fabs.div (FVal.fin a) ≠ FVal.ninf := by
  simp only [FVal.sub, FVal.fabs, FVal.div]
  by_cases ha : a = 0
  · rw [if_pos ha]
    by_cases h1 : 0 < |p - a|
    · rw [if_pos h1]
      simp
    · rw [if_neg h1, if_neg (not_lt.mpr (abs_nonneg _))]
      simp
  · rw [if_neg ha]
    simp

lemma term_zero_inf (p : ℚ) (hp : p ≠ 0) :
    ((FVal.fin p).sub (FVal.fin 0)).fabs.div (FVal.fin 0) = FVal.inf := by
  simp only [FVal.sub, FVal.fabs, FVal.div]
  rw [if_pos trivial, if_pos (by rw [sub_zero]; exact abs_pos.mpr hp)]

lemma mem_zipWith_decomp {α β γ : Type _} {f : α → β → γ} {x : γ} :
    ∀ {l1 : List α} {l2 : List β}, x ∈ List.zipWith f l1 l2 → ∃ a ∈ l1, ∃ b ∈ l2, x = f a b
  | [], _, hx => by simp at hx
  | _ :: _, [], hx => by simp at hx
  | a :: t1, b :: t2, hx => by
    rcases List.mem_cons.mp hx with heq | hmem
    · exact ⟨a, List.mem_cons_self a t1, b, List.mem_cons_self b t2, heq⟩
    · obtain ⟨a2, ha2, b2, hb2, rfl⟩ := mem_zipWith_decomp hmem
      exact ⟨a2, List.mem_cons_of_mem a ha2, b2, List.mem_cons_of_mem b hb2, rfl⟩

/-- Claim C8 counterexample: with actuals `[0, 1]` and predictions
`[0, 2]` — so an actual IS zero — `mape` returns the finite value `1.0`,
not Infinity or NaN: the `0/0` term is NaN, and pandas' mean silently
skips NaN entries. -/
theorem mape_zero_actual_counterexample :
    (0 : ℚ) ∈ [(0 : ℚ), 1] ∧
    mape ([(0 : ℚ), 2].map FVal.fin) ([(0 : ℚ), 1].map FVal.fin) = FVal.fin 1 := by
  refine ⟨List.mem_cons_self 0 [1], ?_⟩
  norm_num [mape, smean, fsum, FVal.sub, FVal.fabs, FVal.div, FVal.add, FVal.isNaN,
    List.zipWith, List.filter]

/-- Claim C8 amended: `mape` never raises (it is total); when some
position has a zero actual and a nonzero prediction, the result is
Infinity.  A position with both prediction and actual zero contributes
a NaN term that the mean's default `skipna` drops, so with only such
zero-actual positions the result can be finite (or NaN when no term
survives); Infinity/NaN is guaranteed only as stated here. -/
theorem mape_zero_actual_inf (ps as : List ℚ)
    (h : ∃ i : ℕ, as[i]? = some 0 ∧ ∃ q, ps[i]? = some q ∧ q ≠ 0) :
    mape (ps.map FVal.fin) (as.map FVal.fin) = FVal.inf := by
  obtain ⟨i, ha, q, hp, hq⟩ := h
  unfold mape smean
  have hterm : (List.zipWith (fun p a => ((FVal.sub p a).fabs).div a)
      (ps.map FVal.fin) (as.map FVal.fin))[i]? =
      some (((FVal.fin q).sub (FVal.fin 0)).fabs.div (FVal.fin 0)) := by
    refine List.getElem?_zipWith_eq_some.mpr ⟨FVal.fin q, FVal.fin 0, ?_, ?_, rfl⟩
    · rw [List.getElem?_map, hp]
      rfl
    · rw [List.getElem?_map, ha]
      rfl
  rw [term_zero_inf q hq] at hterm
  have hinf_mem : FVal.inf ∈ List.zipWith (fun p a => ((FVal.sub p a).fabs).div a)
      (ps.map FVal.fin) (as.map FVal.fin) := List.getElem?_mem hterm
  have hshape : ∀ x ∈ List.zipWith (fun p a => ((FVal.sub p a).fabs).div a)
      (ps.map FVal.fin) (as.map FVal.fin), x ≠ FVal.ninf := by
    intro x hx
    obtain ⟨p2, hp2, a2, ha2, rfl⟩ := mem_zipWith_decomp hx
    obtain ⟨p0, _, rfl⟩ := List.mem_map.mp hp2
    obtain ⟨a0, _, rfl⟩ := List.mem_map.mp ha2
    exact term_ne_ninf p0 a0
  have hkeptinf : FVal.inf ∈ (List.zipWith (fun p a => ((FVal.sub p a).fabs).div a)
      (ps.map FVal.fin) (as.map FVal.fin)).filter (fun v => !FVal.isNaN v) :=
    List.mem_filter.mpr ⟨hinf_mem, rfl⟩
  have hok : ∀ x ∈ (List.zipWith (fun p a => ((FVal.sub p a).fabs).div a)
      (ps.map FVal.fin) (as.map FVal.fin)).filter (fun v => !FVal.isNaN v), x.ok := by
    intro x hx
    have h1 := (List.mem_filter.mp hx).2
    have h2 := (List.mem_filter.mp hx).1
    refine ⟨?_, hshape x h2⟩
    intro heq
    rw [heq] at h1
    simp [FVal.isNaN] at h1
  have hlen0 : ((List.zipWith (fun p a => ((FVal.sub p a).fabs).div a)
      (ps.map FVal.fin) (as.map FVal.fin)).filter (fun v => !FVal.isNaN v)).length ≠ 0 := by
    intro h0
    rw [List.length_eq_zero] at h0
    rw [h0] at hkeptinf
    cases hkeptinf
  simp only []
  rw [if_neg hlen0, fsum_eq_inf hkeptinf hok]
  simp only [FVal.div]
  rw [if_neg (not_lt.mpr (Nat.cast_nonneg _))]

/-- Witness for the amended C8: `mape([2],[0])` is positive infinity. -/
theorem mape_zero_actual_inf_witness :
    mape ([(2 : ℚ)].map FVal.fin) ([(0 : ℚ)].map FVal.fin) = FVal.inf :=
  mape_zero_actual_inf [2] [0] ⟨0, rfl, 2, rfl, by norm_num⟩
